import Mathlib

/-!  Verification of the setting-tree codec and reconciliation behaviour of the
tofutune Terraform provider.  The definitions below are a shallow embedding of
`internal/provider/resource_settings_catalog_policy_settings.go` and of the
Graph client data model in `internal/clients` (the file shipped as an unnamed
source part).  Terraform framework nullable values (`types.String`,
`types.List`) are modelled with `Option`; Terraform diagnostics and tflog
warnings are explicit output lists. -/

namespace Tofutune

/-- A Terraform diagnostic recorded with `diags.AddError(summary, detail)`. -/
structure Diag where
  summary : String
  detail : String
deriving DecidableEq, Repr

/-- A `tflog.Warn "Unknown setting type"` record, with the two fields the Go
code attaches (`definition_id`, `odata_type`). -/
structure Warn where
  definition_id : String
  odata_type : String
deriving DecidableEq, Repr

/-- Declared child setting (`ChildSettingModel`): all three attributes are
`Required` in the schema, hence plain strings. -/
structure ChildSettingModel where
  definition_id : String
  value_type : String
  value : String
deriving DecidableEq, Repr

/-- Declared top-level setting (`SettingModel`): `value` is `Optional` in the
schema and set to null by the group decoder, `children` is a nullable list. -/
structure SettingModel where
  definition_id : String
  value_type : String
  value : Option String
  children : Option (List ChildSettingModel)
deriving DecidableEq, Repr

/-- Wire scalar payload carried in `SimpleSettingValue.Value` (a Go interface
holding the string, int64 or bool values the codec reads and writes). -/
inductive WireVal where
  | vstr (s : String)
  | vint (n : Int)
  | vbool (b : Bool)
deriving DecidableEq, Repr

/-- Go `fmt.Sprintf("%v", v)` on a wire scalar. -/
def WireVal.sprintf : WireVal → String
  | .vstr s => s
  | .vint n => toString n
  | .vbool b => if b then "true" else "false"

/-- `clients.SimpleSettingValue`. -/
structure SimpleSettingValue where
  odataType : String
  value : WireVal
deriving DecidableEq, Repr

mutual

inductive SettingInstance where
  | mk : (odataType : String) → (settingDefinitionId : String) →
      (simpleSettingValue : Option SimpleSettingValue) →
      (choiceSettingValue : Option ChoiceSettingValue) →
      (simpleSettingCollectionValue : List SimpleSettingValue) →
      (groupSettingValue : Option GroupSettingValue) →
      (groupSettingCollectionValue : List GroupSettingValue) →
      SettingInstance

inductive ChoiceSettingValue where
  | mk : (odataType : String) → (value : String) →
      (children : List SettingsCatalogPolicySetting) → ChoiceSettingValue

inductive GroupSettingValue where
  | mk : (odataType : String) →
      (children : List SettingsCatalogPolicySetting) → GroupSettingValue

inductive SettingsCatalogPolicySetting where
  | mk : (odataType : String) → (settingInstance : Option SettingInstance) →
      SettingsCatalogPolicySetting

end

def SettingInstance.odataType : SettingInstance → String
  | .mk o _ _ _ _ _ _ => o

def SettingInstance.settingDefinitionId : SettingInstance → String
  | .mk _ d _ _ _ _ _ => d

def SettingInstance.simpleSettingValue : SettingInstance → Option SimpleSettingValue
  | .mk _ _ s _ _ _ _ => s

def SettingInstance.choiceSettingValue : SettingInstance → Option ChoiceSettingValue
  | .mk _ _ _ c _ _ _ => c

def SettingInstance.simpleSettingCollectionValue : SettingInstance → List SimpleSettingValue
  | .mk _ _ _ _ v _ _ => v

def SettingInstance.groupSettingValue : SettingInstance → Option GroupSettingValue
  | .mk _ _ _ _ _ g _ => g

def SettingInstance.groupSettingCollectionValue : SettingInstance → List GroupSettingValue
  | .mk _ _ _ _ _ _ g => g

def ChoiceSettingValue.odataType : ChoiceSettingValue → String
  | .mk o _ _ => o

def ChoiceSettingValue.value : ChoiceSettingValue → String
  | .mk _ v _ => v

def ChoiceSettingValue.children : ChoiceSettingValue → List SettingsCatalogPolicySetting
  | .mk _ _ c => c

def GroupSettingValue.odataType : GroupSettingValue → String
  | .mk o _ => o

def GroupSettingValue.children : GroupSettingValue → List SettingsCatalogPolicySetting
  | .mk _ c => c

def SettingsCatalogPolicySetting.odataType : SettingsCatalogPolicySetting → String
  | .mk o _ => o

def SettingsCatalogPolicySetting.settingInstance :
    SettingsCatalogPolicySetting → Option SettingInstance
  | .mk _ i => i

def odataSetting : String := "#microsoft.graph.deviceManagementConfigurationSetting"

def odataSimpleInstance : String :=
  "#microsoft.graph.deviceManagementConfigurationSimpleSettingInstance"

def odataChoiceInstance : String :=
  "#microsoft.graph.deviceManagementConfigurationChoiceSettingInstance"

def odataCollectionInstance : String :=
  "#microsoft.graph.deviceManagementConfigurationSimpleSettingCollectionInstance"

def odataGroupInstance : String :=
  "#microsoft.graph.deviceManagementConfigurationGroupSettingInstance"

def odataStringValue : String :=
  "#microsoft.graph.deviceManagementConfigurationStringSettingValue"

def odataIntegerValue : String :=
  "#microsoft.graph.deviceManagementConfigurationIntegerSettingValue"

def odataBooleanValue : String :=
  "#microsoft.graph.deviceManagementConfigurationBooleanSettingValue"

def odataChoiceValue : String :=
  "#microsoft.graph.deviceManagementConfigurationChoiceSettingValue"

def odataGroupValue : String :=
  "#microsoft.graph.deviceManagementConfigurationGroupSettingValue"

/-! Go `strconv.ParseInt(value, 10, 64)`. -/

/-- Error reasons of `strconv.ParseInt`. -/
inductive IntParseErr where
  | invalidSyntax
  | outOfRange
deriving DecidableEq, Repr

/-- Accumulate a run of decimal digits; fails on the first non-digit. -/
def decDigitsAux (acc : Nat) : List Char → Option Nat
  | [] => some acc
  | c :: r =>
    if c.isDigit then decDigitsAux (acc * 10 + (c.toNat - 48)) r else none

/-- Go `strconv.ParseInt` with base 10 and bitSize 64: optional `+`/`-` sign,
one or more decimal digits, and the value must fit in a signed 64-bit
integer.  (Digit-group underscores are rejected, as Go does for an explicit
base.) -/
def goParseInt64 (s : String) : Except IntParseErr Int :=
  match s.data with
  | [] => .error .invalidSyntax
  | c :: rest =>
    let ds := if c = '-' ∨ c = '+' then rest else c :: rest
    let neg := c = '-'
    match ds with
    | [] => .error .invalidSyntax
    | _ =>
      match decDigitsAux 0 ds with
      | none => .error .invalidSyntax
      | some m =>
        let v : Int := if neg then -(m : Int) else (m : Int)
        if v < -(2 ^ 63) ∨ 2 ^ 63 ≤ v then .error .outOfRange else .ok v

/-- A string is the canonical decimal form of some signed 64-bit integer:
it parses, and printing the parsed value gives the string back. -/
def isCanonicalInt64 (s : String) : Bool :=
  match goParseInt64 s with
  | .ok n => toString n == s
  | .error _ => false

/-- Lowercase hexadecimal digit. -/
def hexDigitChar (n : Nat) : Char :=
  if n < 10 then Char.ofNat (48 + n) else Char.ofNat (87 + n)

/-- Go `strconv.Quote` escaping for one character, modelled for the ASCII
escapes Go applies; printable non-ASCII runes are kept literal (Go consults
`unicode.IsPrint`, whose tables are not modelled).  Only the text of
diagnostics depends on this. -/
def goQuoteChar (c : Char) : List Char :=
  if c = '"' then ['\\', '"']
  else if c = '\\' then ['\\', '\\']
  else if c = Char.ofNat 7 then ['\\', 'a']
  else if c = Char.ofNat 8 then ['\\', 'b']
  else if c = Char.ofNat 12 then ['\\', 'f']
  else if c = '\n' then ['\\', 'n']
  else if c = '\r' then ['\\', 'r']
  else if c = '\t' then ['\\', 't']
  else if c = Char.ofNat 11 then ['\\', 'v']
  else if c.toNat < 32 then
    ['\\', 'x', hexDigitChar (c.toNat / 16), hexDigitChar (c.toNat % 16)]
  else [c]

/-- Go `strconv.Quote`. -/
def goQuote (s : String) : String :=
  ⟨'"' :: s.data.flatMap goQuoteChar ++ ['"']⟩

/-- The `Error()` text of the `strconv.NumError` returned by
`strconv.ParseInt`. -/
def strconvParseIntErr (s : String) (e : IntParseErr) : String :=
  "strconv.ParseInt: parsing " ++ goQuote s ++ ": " ++
    (match e with
     | .invalidSyntax => "invalid syntax"
     | .outOfRange => "value out of range")

/-! JSON, as used by the codec through `encoding/json`: `json.Unmarshal` of a
declared collection value into `[]interface` values, and `json.Marshal` of a
`[]string` on the decode path. -/

/-- JSON values as produced by Go `json.Unmarshal` into interface values.
Numbers keep their source token: Go converts them to float64, whose exact
formatting is outside this model and is never exercised by the claims. -/
inductive JVal where
  | jnull
  | jbool (b : Bool)
  | jnum (raw : String)
  | jstr (s : String)
  | jarr (elems : List JVal)
  | jobj (fields : List (String × JVal))
deriving Repr

/-- Go `fmt.Sprintf("%v", v)` on a JSON-decoded interface value.  The cases
that reach the wire in this codebase are strings, booleans and null; the
float64 rendering of numbers and the rendering of nested aggregates are not
modelled (no claim depends on them). -/
def JVal.sprintfV : JVal → String
  | .jnull => "<nil>"
  | .jbool b => if b then "true" else "false"
  | .jnum raw => raw
  | .jstr s => s
  | .jarr _ => "<unmodelled aggregate>"
  | .jobj _ => "<unmodelled aggregate>"

/-- `encoding/json` escaping of one character inside a string literal, with
HTML escaping on (the `json.Marshal` default). -/
def jsonEscapeChar (c : Char) : List Char :=
  if c = '"' then ['\\', '"']
  else if c = '\\' then ['\\', '\\']
  else if c = '\n' then ['\\', 'n']
  else if c = '\r' then ['\\', 'r']
  else if c = '\t' then ['\\', 't']
  else if c = '<' ∨ c = '>' ∨ c = '&' then
    ['\\', 'u', '0', '0', hexDigitChar (c.toNat / 16), hexDigitChar (c.toNat % 16)]
  else if c.toNat < 32 then
    ['\\', 'u', '0', '0', hexDigitChar (c.toNat / 16), hexDigitChar (c.toNat % 16)]
  else if c.toNat = 0x2028 then ['\\', 'u', '2', '0', '2', '8']
  else if c.toNat = 0x2029 then ['\\', 'u', '2', '0', '2', '9']
  else [c]

def jsonEscape : List Char → List Char
  | [] => []
  | c :: r => jsonEscapeChar c ++ jsonEscape r

/-- A rendered JSON string literal, quotes included. -/
def jsonRenderString (s : String) : List Char :=
  '"' :: jsonEscape s.data ++ ['"']

def jsonRenderTail : List String → List Char
  | [] => []
  | s :: r => ',' :: jsonRenderString s ++ jsonRenderTail r

def jsonRenderStringsSep : List String → List Char
  | [] => []
  | s :: r => jsonRenderString s ++ jsonRenderTail r

/-- Go `json.Marshal` of a non-nil `[]string` (no inter-element spaces). -/
def jsonMarshalStrings (l : List String) : String :=
  ⟨'[' :: jsonRenderStringsSep l ++ [']']⟩

def isJsonWs (c : Char) : Bool :=
  c = ' ' ∨ c = '\t' ∨ c = '\n' ∨ c = '\r'

def skipWs : List Char → List Char
  | [] => []
  | c :: r => if isJsonWs c then skipWs r else c :: r

def hexVal (c : Char) : Option Nat :=
  if '0' ≤ c ∧ c ≤ '9' then some (c.toNat - 48)
  else if 'a' ≤ c ∧ c ≤ 'f' then some (c.toNat - 87)
  else if 'A' ≤ c ∧ c ≤ 'F' then some (c.toNat - 55)
  else none

/-- Four hexadecimal digits, as in Go's `getu4` once past the `\u`
prefix. -/
def parseHex4 : List Char → Option (Nat × List Char)
  | h1 :: h2 :: h3 :: h4 :: r =>
    match hexVal h1, hexVal h2, hexVal h3, hexVal h4 with
    | some a, some b, some c, some d => some (((a * 16 + b) * 16 + c) * 16 + d, r)
    | _, _, _, _ => none
  | _ => none

/-- Go's `getu4`: a `\uXXXX` escape at the head of the input. -/
def parseUQuad : List Char → Option (Nat × List Char)
  | '\\' :: 'u' :: r => parseHex4 r
  | _ => none

/-- Parse the body of a JSON string literal (after the opening quote) up to
and including the closing quote, returning the decoded characters and the
rest of the input.  Mirrors `encoding/json`: the short escapes and
`\uXXXX` (with UTF-16 surrogate pairing; a lone or ill-paired surrogate
becomes U+FFFD without consuming the follower), a syntax error on a bad hex
quad or an unknown escape, and raw control characters rejected.  Every
recursive call follows the consumption of at least one character, so fuel
equal to the input length plus one never causes a spurious failure. -/
def parseStringBody : Nat → List Char → Option (List Char × List Char)
  | 0, _ => none
  | _, [] => none
  | fuel + 1, c :: r =>
    if c = '"' then some ([], r)
    else if c = '\\' then
      match r with
      | [] => none
      | e :: r1 =>
        if e = '"' ∨ e = '\\' ∨ e = '/' then
          (parseStringBody fuel r1).map (fun p => (e :: p.1, p.2))
        else if e = 'b' then (parseStringBody fuel r1).map (fun p => (Char.ofNat 8 :: p.1, p.2))
        else if e = 'f' then (parseStringBody fuel r1).map (fun p => (Char.ofNat 12 :: p.1, p.2))
        else if e = 'n' then (parseStringBody fuel r1).map (fun p => ('\n' :: p.1, p.2))
        else if e = 'r' then (parseStringBody fuel r1).map (fun p => ('\r' :: p.1, p.2))
        else if e = 't' then (parseStringBody fuel r1).map (fun p => ('\t' :: p.1, p.2))
        else if e = 'u' then
          match parseHex4 r1 with
          | some (n, r2) =>
            if 0xD800 ≤ n ∧ n < 0xDC00 then
              match parseUQuad r2 with
              | some (n2, r3) =>
                if 0xDC00 ≤ n2 ∧ n2 < 0xE000 then
                  (parseStringBody fuel r3).map (fun p =>
                    (Char.ofNat (0x10000 + (n - 0xD800) * 0x400 + (n2 - 0xDC00)) :: p.1, p.2))
                else
                  (parseStringBody fuel r2).map (fun p => (Char.ofNat 0xFFFD :: p.1, p.2))
              | none =>
                (parseStringBody fuel r2).map (fun p => (Char.ofNat 0xFFFD :: p.1, p.2))
            else if 0xDC00 ≤ n ∧ n < 0xE000 then
              (parseStringBody fuel r2).map (fun p => (Char.ofNat 0xFFFD :: p.1, p.2))
            else
              (parseStringBody fuel r2).map (fun p => (Char.ofNat n :: p.1, p.2))
          | none => none
        else none
    else if c.toNat < 32 then none
    else (parseStringBody fuel r).map (fun p => (c :: p.1, p.2))

/-- Take a maximal run of decimal digits. -/
def takeDigits : List Char → List Char × List Char
  | [] => ([], [])
  | c :: r =>
    if c.isDigit then
      let p := takeDigits r
      (c :: p.1, p.2)
    else ([], c :: r)

/-- Integer part of a JSON number: `0` or a nonzero digit followed by more
digits (no leading zeros). -/
def parseIntPart : List Char → Option (List Char × List Char)
  | [] => none
  | c :: r =>
    if c = '0' then some (['0'], r)
    else if c.isDigit then
      let p := takeDigits r
      some (c :: p.1, p.2)
    else none

/-- Optional fraction part `.digits`. -/
def parseFracPart (l : List Char) : Option (List Char × List Char) :=
  match l with
  | '.' :: r =>
    match takeDigits r with
    | ([], _) => none
    | (ds, rest) => some ('.' :: ds, rest)
  | _ => some ([], l)

/-- Optional exponent part `e|E [+|-] digits`. -/
def parseExpPart (l : List Char) : Option (List Char × List Char) :=
  match l with
  | c :: r =>
    if c = 'e' ∨ c = 'E' then
      let sr :=
        match r with
        | s :: r2 => if s = '+' ∨ s = '-' then ([s], r2) else (([] : List Char), s :: r2)
        | [] => ([], [])
      match takeDigits sr.2 with
      | ([], _) => none
      | (ds, rest) => some (c :: sr.1 ++ ds, rest)
    else some ([], c :: r)
  | [] => some ([], [])

/-- A JSON number token, returned as its raw text. -/
def parseNumber (l : List Char) : Option (String × List Char) :=
  let h :=
    match l with
    | '-' :: r => (['-'], r)
    | _ => (([] : List Char), l)
  match parseIntPart h.2 with
  | none => none
  | some (ip, l2) =>
    match parseFracPart l2 with
    | none => none
    | some (fp, l3) =>
      match parseExpPart l3 with
      | none => none
      | some (ep, l4) => some (⟨h.1 ++ ip ++ fp ++ ep⟩, l4)

mutual

/-- Parse one JSON value (leading whitespace allowed).  The fuel only bounds
recursion into nested arrays/objects and element lists; every recursive call
follows the consumption of at least one input character, so the generous
fuel chosen at the top level never causes a spurious failure. -/
def parseValue : Nat → List Char → Option (JVal × List Char)
  | 0, _ => none
  | fuel + 1, l =>
    match skipWs l with
    | 'n' :: 'u' :: 'l' :: 'l' :: r => some (.jnull, r)
    | 't' :: 'r' :: 'u' :: 'e' :: r => some (.jbool true, r)
    | 'f' :: 'a' :: 'l' :: 's' :: 'e' :: r => some (.jbool false, r)
    | '"' :: r => (parseStringBody (r.length + 1) r).map (fun p => (.jstr ⟨p.1⟩, p.2))
    | '[' :: r => (parseElems fuel r).map (fun p => (.jarr p.1, p.2))
    | '{' :: r => (parseFields fuel r).map (fun p => (.jobj p.1, p.2))
    | c :: r =>
      if c = '-' ∨ c.isDigit then
        (parseNumber (c :: r)).map (fun p => (.jnum p.1, p.2))
      else none
    | [] => none

/-- Elements of an array after the opening bracket. -/
def parseElems : Nat → List Char → Option (List JVal × List Char)
  | 0, _ => none
  | fuel + 1, l =>
    match skipWs l with
    | ']' :: r => some ([], r)
    | l' =>
      match parseValue fuel l' with
      | none => none
      | some (v, r) => (parseElemsTail fuel r).map (fun p => (v :: p.1, p.2))

/-- Continuation of an array after one parsed element. -/
def parseElemsTail : Nat → List Char → Option (List JVal × List Char)
  | 0, _ => none
  | fuel + 1, l =>
    match skipWs l with
    | ']' :: r => some ([], r)
    | ',' :: r =>
      match parseValue fuel r with
      | none => none
      | some (v, r2) => (parseElemsTail fuel r2).map (fun p => (v :: p.1, p.2))
    | _ => none

/-- Members of an object after the opening brace. -/
def parseFields : Nat → List Char → Option (List (String × JVal) × List Char)
  | 0, _ => none
  | fuel + 1, l =>
    match skipWs l with
    | '}' :: r => some ([], r)
    | '"' :: r =>
      match parseStringBody (r.length + 1) r with
      | none => none
      | some (k, r2) =>
        match skipWs r2 with
        | ':' :: r3 =>
          match parseValue fuel r3 with
          | none => none
          | some (v, r4) =>
            (parseFieldsTail fuel r4).map (fun p => ((⟨k⟩, v) :: p.1, p.2))
        | _ => none
    | _ => none

/-- Continuation of an object after one parsed member. -/
def parseFieldsTail : Nat → List Char → Option (List (String × JVal) × List Char)
  | 0, _ => none
  | fuel + 1, l =>
    match skipWs l with
    | '}' :: r => some ([], r)
    | ',' :: r =>
      match skipWs r with
      | '"' :: r1 =>
        match parseStringBody (r1.length + 1) r1 with
        | none => none
        | some (k, r2) =>
          match skipWs r2 with
          | ':' :: r3 =>
            match parseValue fuel r3 with
            | none => none
            | some (v, r4) =>
              (parseFieldsTail fuel r4).map (fun p => ((⟨k⟩, v) :: p.1, p.2))
          | _ => none
      | _ => none
    | _ => none

end

/-- Go `json.Unmarshal` of a whole document into an interface value: one
JSON value surrounded only by whitespace.  (Go's depth limit of 10000 is not
modelled; the fuel is generous enough for any document of this length.) -/
def goUnmarshalJSON (s : String) : Option JVal :=
  match parseValue (2 * s.data.length + 4) s.data with
  | some (v, r) => if (skipWs r).isEmpty then some v else none
  | none => none

/-- Go `json.Unmarshal` into a `[]interface` target, as the collection
encoder uses it: the document must be a JSON array — except that a JSON
`null` unmarshals into a nil slice with no error. -/
def goUnmarshalArray (s : String) : Option (List JVal) :=
  match goUnmarshalJSON s with
  | some (.jarr xs) => some xs
  | some .jnull => some []
  | _ => none

/-! The encoder: `convertChildSetting`, `convertSettingInstance`,
`convertToAPISettings`. -/

/-- Modelled text of the `encoding/json` unmarshal error embedded in the
collection diagnostic; the exact wording of the library error is not relied
on by any proof. -/
def jsonUnmarshalErrText (v : String) : String :=
  match goUnmarshalJSON v with
  | some _ => "json: cannot unmarshal value into Go value of type []interface \x7b\x7d"
  | none => "invalid JSON document"

/-- The diagnostic recorded for an integer value that does not parse. -/
def invalidIntegerDiag (value : String) (e : IntParseErr) : Diag :=
  ⟨"Invalid Integer Value",
   "Could not parse '" ++ value ++ "' as integer: " ++ strconvParseIntErr value e⟩

/-- The diagnostic recorded for a collection value that is not a JSON array. -/
def invalidCollectionDiag (value : String) : Diag :=
  ⟨"Invalid Collection Value",
   "Could not parse '" ++ value ++ "' as JSON array: " ++ jsonUnmarshalErrText value⟩

/-- `convertChildSetting`: one declared child to its wire setting.  Only the
integer case can fail (returning nil plus a diagnostic); an unknown value
type yields an instance with only the definition id set, as the Go switch
falls through. -/
def convertChildSetting (c : ChildSettingModel) :
    Option SettingsCatalogPolicySetting × List Diag :=
  match c.value_type with
  | "string" =>
    (some (.mk odataSetting (some (.mk odataSimpleInstance c.definition_id
      (some ⟨odataStringValue, .vstr c.value⟩) none [] none []))), [])
  | "integer" =>
    match goParseInt64 c.value with
    | .error e => (none, [invalidIntegerDiag c.value e])
    | .ok n =>
      (some (.mk odataSetting (some (.mk odataSimpleInstance c.definition_id
        (some ⟨odataIntegerValue, .vint n⟩) none [] none []))), [])
  | "boolean" =>
    (some (.mk odataSetting (some (.mk odataSimpleInstance c.definition_id
      (some ⟨odataBooleanValue, .vbool (c.value == "true")⟩) none [] none []))), [])
  | "choice" =>
    (some (.mk odataSetting (some (.mk odataChoiceInstance c.definition_id
      none (some (.mk odataChoiceValue c.value [])) [] none []))), [])
  | _ =>
    (some (.mk odataSetting (some (.mk "" c.definition_id none none [] none []))), [])

/-- The loop over declared children: failed children are skipped (their
diagnostics kept), converted children appended in order. -/
def convertChildren (cs : List ChildSettingModel) :
    List SettingsCatalogPolicySetting × List Diag :=
  match cs with
  | [] => ([], [])
  | c :: r =>
    let h := convertChildSetting c
    let rest := convertChildren r
    ((match h.1 with
      | some x => x :: rest.1
      | none => rest.1), h.2 ++ rest.2)

/-- The `!setting.Children.IsNull() && len(...) > 0` guard: children worth
converting. -/
def childrenToConvert : Option (List ChildSettingModel) → List ChildSettingModel
  | none => []
  | some cs => if cs.length > 0 then cs else []

/-- `convertSettingInstance`: one declared setting to its wire instance.
`value` reads as the empty string when null (`types.String.ValueString`).
Returns nil plus a diagnostic for a bad integer or collection value; an
unknown value type (excluded by the schema validator) leaves an instance
with only the definition id, as the Go switch falls through. -/
def convertSettingInstance (s : SettingModel) : Option SettingInstance × List Diag :=
  let value := s.value.getD ""
  match s.value_type with
  | "string" =>
    (some (.mk odataSimpleInstance s.definition_id
      (some ⟨odataStringValue, .vstr value⟩) none [] none []), [])
  | "integer" =>
    match goParseInt64 value with
    | .error e => (none, [invalidIntegerDiag value e])
    | .ok n =>
      (some (.mk odataSimpleInstance s.definition_id
        (some ⟨odataIntegerValue, .vint n⟩) none [] none []), [])
  | "boolean" =>
    (some (.mk odataSimpleInstance s.definition_id
      (some ⟨odataBooleanValue, .vbool (value == "true")⟩) none [] none []), [])
  | "choice" =>
    let cc := convertChildren (childrenToConvert s.children)
    (some (.mk odataChoiceInstance s.definition_id
      none (some (.mk odataChoiceValue value cc.1)) [] none []), cc.2)
  | "collection" =>
    match goUnmarshalArray value with
    | none => (none, [invalidCollectionDiag value])
    | some vs =>
      (some (.mk odataCollectionInstance s.definition_id none none
        (vs.map fun v => ⟨odataStringValue, .vstr v.sprintfV⟩) none []), [])
  | "group" =>
    let cc := convertChildren (childrenToConvert s.children)
    (some (.mk odataGroupInstance s.definition_id
      none none [] (some (.mk odataGroupValue cc.1)) []), cc.2)
  | _ =>
    (some (.mk "" s.definition_id none none [] none []), [])

/-- `convertToAPISettings`: every declared setting becomes a wire element
(with a nil instance when its conversion failed), diagnostics accumulate. -/
def convertToAPISettings (l : List SettingModel) :
    List SettingsCatalogPolicySetting × List Diag :=
  match l with
  | [] => ([], [])
  | s :: r =>
    let h := convertSettingInstance s
    let rest := convertToAPISettings r
    (.mk odataSetting h.1 :: rest.1, h.2 ++ rest.2)

/-- The Create/Update submission gate: the wire list is handed to the
transport only when no diagnostic error was recorded
(`resp.Diagnostics.HasError()`). -/
def encodeForSubmit (l : List SettingModel) :
    Option (List SettingsCatalogPolicySetting) :=
  match convertToAPISettings l with
  | (ws, []) => some ws
  | _ => none

/-! The decoder: `parseSimpleSettingValue`, `parseChildSettings`,
`convertAPISettingsToModel`. -/

/-- `parseSimpleSettingValue`: wire subtype tag to declared (value type,
value); unknown tags fall back to the string type with the `%v`-rendered
value, a non-bool payload under the boolean tag is `%v`-rendered too. -/
def parseSimpleSettingValue : Option SimpleSettingValue → Option String × Option String
  | none => (none, none)
  | some ssv =>
    if ssv.odataType = odataStringValue then (some "string", some ssv.value.sprintf)
    else if ssv.odataType = odataIntegerValue then (some "integer", some ssv.value.sprintf)
    else if ssv.odataType = odataBooleanValue then
      match ssv.value with
      | .vbool b => (some "boolean", some (if b then "true" else "false"))
      | v => (some "boolean", some v.sprintf)
    else (some "string", some ssv.value.sprintf)

/-- One wire child to a declared child: simple values via
`parseSimpleSettingValue`, choice values directly; any other shape (nil
instance, group value, collection, ...) is not decodable. -/
def decodeChild (w : SettingsCatalogPolicySetting) : Option ChildSettingModel :=
  match w.settingInstance with
  | none => none
  | some inst =>
    match inst.simpleSettingValue with
    | some ssv =>
      let tv := parseSimpleSettingValue (some ssv)
      some ⟨inst.settingDefinitionId, tv.1.getD "", tv.2.getD ""⟩
    | none =>
      match inst.choiceSettingValue with
      | some cv => some ⟨inst.settingDefinitionId, "choice", cv.value⟩
      | none => none

/-- The loop body of `parseChildSettings`: undecodable children are skipped
with no output of any kind. -/
def decodeChildrenLoop : List SettingsCatalogPolicySetting → List ChildSettingModel
  | [] => []
  | w :: r =>
    match decodeChild w with
    | some c => c :: decodeChildrenLoop r
    | none => decodeChildrenLoop r

/-- `parseChildSettings`: a null list when nothing was decodable, otherwise
the decoded children; the only diagnostics are those of the final
`types.ListValueFrom`, which cannot fail on well-typed values. -/
def parseChildSettings (cs : List SettingsCatalogPolicySetting) :
    Option (List ChildSettingModel) × List Diag :=
  let l := decodeChildrenLoop cs
  (if l.isEmpty then none else some l, [])

/-- The per-element body of `convertAPISettingsToModel`: dispatch on which
wire field is populated, in source order; the default case only logs a
warning. -/
def decodeInstance (inst : SettingInstance) :
    Option SettingModel × List Diag × List Warn :=
  match inst.simpleSettingValue with
  | some ssv =>
    let tv := parseSimpleSettingValue (some ssv)
    (some ⟨inst.settingDefinitionId, tv.1.getD "", tv.2, none⟩, [], [])
  | none =>
    match inst.choiceSettingValue with
    | some cv =>
      if cv.children.length > 0 then
        let pc := parseChildSettings cv.children
        (some ⟨inst.settingDefinitionId, "choice", some cv.value, pc.1⟩, pc.2, [])
      else
        (some ⟨inst.settingDefinitionId, "choice", some cv.value, none⟩, [], [])
    | none =>
      match inst.simpleSettingCollectionValue with
      | v0 :: vs =>
        let values := (v0 :: vs).map (fun v => v.value.sprintf)
        (some ⟨inst.settingDefinitionId, "collection",
          some (jsonMarshalStrings values), none⟩, [], [])
      | [] =>
        match inst.groupSettingValue with
        | some gv =>
          if gv.children.length > 0 then
            let pc := parseChildSettings gv.children
            (some ⟨inst.settingDefinitionId, "group", none, pc.1⟩, pc.2, [])
          else
            (some ⟨inst.settingDefinitionId, "group", none, none⟩, [], [])
        | none => (none, [], [⟨inst.settingDefinitionId, inst.odataType⟩])

/-- The loop of `convertAPISettingsToModel`: elements with a nil instance
are skipped with no output at all; elements whose instance decodes to
nothing contribute only their warning. -/
def decodeSettingsList (l : List SettingsCatalogPolicySetting) :
    List SettingModel × List Diag × List Warn :=
  match l with
  | [] => ([], [], [])
  | w :: r =>
    let rest := decodeSettingsList r
    match w.settingInstance with
    | none => rest
    | some inst =>
      let d := decodeInstance inst
      (match d.1 with
       | some s => s :: rest.1
       | none => rest.1, d.2.1 ++ rest.2.1, d.2.2 ++ rest.2.2)

/-- `convertAPISettingsToModel`: a null list when nothing was decoded,
otherwise the decoded settings. -/
def convertAPISettingsToModel (l : List SettingsCatalogPolicySetting) :
    Option (List SettingModel) × List Diag × List Warn :=
  let r := decodeSettingsList l
  (if r.1.isEmpty then none else some r.1, r.2.1, r.2.2)

/-! The lifecycle behaviour the claims reference: the Read refresh and the
Delete clear, over the Graph client calls in `internal/clients`. -/

/-- Path of the policy object (`PathSettingsCatalogPolicies` plus the quoted
id). -/
def policyPath (pid : String) : String :=
  "/deviceManagement/configurationPolicies('" ++ pid ++ "')"

/-- Path of the policy's settings endpoint, as built by
`UpdateSettingsCatalogPolicySettings`. -/
def policySettingsPath (pid : String) : String :=
  policyPath pid ++ "/settings"

/-- An HTTP call issued through the Graph client, as visible to the
transport: method, path, and the settings list carried in the body when the
call is a settings update. -/
structure HttpCall where
  method : String
  path : String
  settingsBody : Option (List SettingsCatalogPolicySetting)

/-- `UpdateSettingsCatalogPolicySettings`: one PUT of
`settings: [...]` to the policy's settings endpoint. -/
def updateSettingsCall (pid : String)
    (settings : List SettingsCatalogPolicySetting) : HttpCall :=
  ⟨"PUT", policySettingsPath pid, some settings⟩

/-- `DeleteSettingsCatalogPolicy`: a DELETE of the policy object itself.
The settings resource never issues it; it is modelled to state that. -/
def deletePolicyCall (pid : String) : HttpCall :=
  ⟨"DELETE", policyPath pid, none⟩

/-- The transport calls issued by the `Delete` method of the settings
resource: exactly one settings update carrying the empty list. -/
def deleteRequests (pid : String) : List HttpCall :=
  [updateSettingsCall pid []]

/-- The remote policy object, restricted to the fields of
`SettingsCatalogPolicy` the claims mention. -/
structure PolicyRemote where
  id : String
  name : String
  description : String
  platforms : String
  technologies : String
  settings : List SettingsCatalogPolicySetting

/-- Models the Graph service semantics of the two policy endpoints
(environment behaviour, not repository code): a PUT to the settings endpoint
replaces only the settings collection of the policy, a DELETE of the policy
path removes the policy, anything else leaves the state alone. -/
def applyCall (pid : String) (st : Option PolicyRemote) (c : HttpCall) :
    Option PolicyRemote :=
  match st with
  | none => none
  | some p =>
    if c.method = "PUT" ∧ c.path = policySettingsPath pid then
      some { p with settings := c.settingsBody.getD [] }
    else if c.method = "DELETE" ∧ c.path = policyPath pid then none
    else some p

/-- What the Read refresh sees from `GetSettingsCatalogPolicy`. -/
inductive ReadInput where
  | notFound
  | otherError (code msg : String)
  | ok (p : PolicyRemote)

/-- What the Read refresh does to the Terraform state. -/
inductive ReadOutcome where
  | removed
  | failed (diags : List Diag)
  | stateSet (settings : Option (List SettingModel))

/-- The `Read` method: a NotFound error or an empty remote settings list
removes the resource from state; otherwise the decoded settings are stored
(or the diagnostics surface). -/
def readStep (pid : String) : ReadInput → ReadOutcome
  | .notFound => .removed
  | .otherError code msg =>
    .failed [⟨"Error Reading Settings Catalog Policy Settings",
      "Could not read policy ID " ++ pid ++ ": " ++ code ++ ": " ++ msg⟩]
  | .ok p =>
    if p.settings.isEmpty then .removed
    else
      let r := convertAPISettingsToModel p.settings
      if r.2.1.isEmpty then .stateSet r.1 else .failed r.2.1

/-- The JSON field names that marshalling a `GroupSettingValue` serializes:
both struct fields carry `omitempty`, so an empty children slice is omitted
entirely rather than serialized as an empty array. -/
def GroupSettingValue.serializedFieldNames (g : GroupSettingValue) : List String :=
  (if g.odataType = "" then [] else ["@odata.type"]) ++
    (if g.children.isEmpty then [] else ["children"])

/-- Whether a JSON value is a string. -/
def isJStr : JVal → Bool
  | .jstr _ => true
  | _ => false

/-- A declared child value is in the canonical form the decoder itself
produces for its kind: any string for string/choice, canonical decimal int64
for integer, the literal `true`/`false` for boolean. -/
def canonicalChild (c : ChildSettingModel) : Bool :=
  match c.value_type with
  | "string" => true
  | "integer" => isCanonicalInt64 c.value
  | "boolean" => c.value == "true" || c.value == "false"
  | "choice" => true
  | _ => false

/-- A declared children field is in canonical form: absent, or a nonempty
list of canonical children (the decoder never produces an empty non-null
children list). -/
def canonicalChildren : Option (List ChildSettingModel) → Bool
  | none => true
  | some cs => !cs.isEmpty && cs.all canonicalChild

/-- A declared collection value is the canonical JSON serialization of a
nonempty string list (checked by parse and re-print). -/
def canonicalCollectionValue (v : String) : Bool :=
  match goUnmarshalArray v with
  | some es =>
    !es.isEmpty && es.all isJStr && (jsonMarshalStrings (es.map JVal.sprintfV) == v)
  | none => false

/-- A declared setting is in the canonical form the decoder itself produces
for its kind; canonical settings are exactly those that survive an
encode/decode cycle unchanged. -/
def canonicalSetting (s : SettingModel) : Bool :=
  match s.value_type with
  | "string" => s.value.isSome && s.children == none
  | "integer" => (s.value.map isCanonicalInt64).getD false && s.children == none
  | "boolean" =>
    (s.value == some "true" || s.value == some "false") && s.children == none
  | "choice" => s.value.isSome && canonicalChildren s.children
  | "collection" =>
    (s.value.map canonicalCollectionValue).getD false && s.children == none
  | "group" => s.value == none && canonicalChildren s.children
  | _ => false

/-! General facts about the decoder loops used by several claims. -/

theorem decodeChildrenLoop_append (a b : List SettingsCatalogPolicySetting) :
    decodeChildrenLoop (a ++ b) = decodeChildrenLoop a ++ decodeChildrenLoop b := by
  induction a with
  | nil => simp [decodeChildrenLoop]
  | cons w r ih =>
    simp only [List.cons_append, decodeChildrenLoop]
    cases decodeChild w <;> simp [ih]

theorem decodeInstance_no_diags (inst : SettingInstance) :
    (decodeInstance inst).2.1 = [] := by
  unfold decodeInstance
  repeat' split
  all_goals simp [parseChildSettings]

theorem decodeSettingsList_no_diags (l : List SettingsCatalogPolicySetting) :
    (decodeSettingsList l).2.1 = [] := by
  induction l with
  | nil => rfl
  | cons w r ih =>
    simp only [decodeSettingsList]
    split
    · exact ih
    · simp [decodeInstance_no_diags, ih]

theorem decodeSettingsList_append (a b : List SettingsCatalogPolicySetting) :
    decodeSettingsList (a ++ b) =
      ((decodeSettingsList a).1 ++ (decodeSettingsList b).1,
       (decodeSettingsList a).2.1 ++ (decodeSettingsList b).2.1,
       (decodeSettingsList a).2.2 ++ (decodeSettingsList b).2.2) := by
  induction a with
  | nil => simp [decodeSettingsList]
  | cons w r ih =>
    simp only [List.cons_append, decodeSettingsList]
    split
    · simp [ih]
    · dsimp only
      split <;> simp [ih]

theorem decodeSettingsList_length_le (l : List SettingsCatalogPolicySetting) :
    (decodeSettingsList l).1.length ≤ l.length := by
  induction l with
  | nil => simp [decodeSettingsList]
  | cons w r ih =>
    simp only [decodeSettingsList]
    split
    · exact Nat.le_succ_of_le ih
    · dsimp only
      split <;> simp <;> omega

theorem decodeChild_none_of_composite (w : SettingsCatalogPolicySetting)
    (h : w.settingInstance = none ∨
      ∃ inst, w.settingInstance = some inst ∧ inst.simpleSettingValue = none ∧
        inst.choiceSettingValue = none) :
    decodeChild w = none := by
  unfold decodeChild
  rcases h with h | ⟨inst, hi, h1, h2⟩
  · rw [h]
  · simp only [hi, h1, h2]

/-- C2 (corrected): a child wire node that is neither a simple value nor a
choice value (or has a nil setting instance) is dropped from the decoded
children and decoding of the remaining children continues — but silently,
with no diagnostic emitted, contrary to the claim. -/
theorem childCompositeDroppedSilently
    (pre post : List SettingsCatalogPolicySetting) (w : SettingsCatalogPolicySetting)
    (h : w.settingInstance = none ∨
      ∃ inst, w.settingInstance = some inst ∧ inst.simpleSettingValue = none ∧
        inst.choiceSettingValue = none) :
    parseChildSettings (pre ++ w :: post) = parseChildSettings (pre ++ post) ∧
    (parseChildSettings (pre ++ w :: post)).2 = [] := by
  have hw := decodeChild_none_of_composite w h
  have hloop : decodeChildrenLoop (pre ++ w :: post) = decodeChildrenLoop (pre ++ post) := by
    rw [decodeChildrenLoop_append, decodeChildrenLoop_append]
    simp only [decodeChildrenLoop, hw]
  constructor
  · simp only [parseChildSettings, hloop]
  · rfl

/-- C2 witness: a concrete nested group child between decoding continuing on
a simple sibling. -/
theorem childCompositeDroppedSilently_witness :
    parseChildSettings
      [.mk odataSetting (some (.mk odataGroupInstance "nested" none none []
        (some (.mk odataGroupValue [])) [])),
       .mk odataSetting (some (.mk odataSimpleInstance "c1"
        (some ⟨odataStringValue, .vstr "v"⟩) none [] none []))] =
      parseChildSettings
        [.mk odataSetting (some (.mk odataSimpleInstance "c1"
          (some ⟨odataStringValue, .vstr "v"⟩) none [] none []))] ∧
    (parseChildSettings
      [.mk odataSetting (some (.mk odataGroupInstance "nested" none none []
        (some (.mk odataGroupValue [])) [])),
       .mk odataSetting (some (.mk odataSimpleInstance "c1"
        (some ⟨odataStringValue, .vstr "v"⟩) none [] none []))]).2 = [] := by
  have := childCompositeDroppedSilently []
    [.mk odataSetting (some (.mk odataSimpleInstance "c1"
      (some ⟨odataStringValue, .vstr "v"⟩) none [] none []))]
    (.mk odataSetting (some (.mk odataGroupInstance "nested" none none []
      (some (.mk odataGroupValue [])) [])))
    (Or.inr ⟨.mk odataGroupInstance "nested" none none []
      (some (.mk odataGroupValue [])) [], rfl, rfl, rfl⟩)
  simpa using this

/-- C2 counterexample: the claim asserts a diagnostic is emitted for the
dropped composite child; decoding a choice child list containing a nested
group child yields the surviving simple child and an empty diagnostics
list — nothing is emitted. -/
theorem nestedCompositeChildNoDiagnostic :
    parseChildSettings
      [.mk odataSetting (some (.mk odataGroupInstance "nested" none none []
        (some (.mk odataGroupValue [])) [])),
       .mk odataSetting (some (.mk odataSimpleInstance "c1"
        (some ⟨odataStringValue, .vstr "v"⟩) none [] none []))] =
      (some [⟨"c1", "string", "v"⟩], []) := rfl

/-- C3 (confirmed): encoding a boolean setting coerces exactly the literal
string `true` to wire true and anything else (null reads as the empty
string) to wire false, with no diagnostic; decoding formats wire booleans
back to the literal strings. -/
theorem booleanLenientCodec (s : SettingModel) (h : s.value_type = "boolean") :
    convertSettingInstance s =
      (some (.mk odataSimpleInstance s.definition_id
        (some ⟨odataBooleanValue, .vbool (s.value.getD "" == "true")⟩) none [] none []), []) ∧
    (∀ b, parseSimpleSettingValue (some ⟨odataBooleanValue, .vbool b⟩) =
      (some "boolean", some (if b then "true" else "false"))) := by
  obtain ⟨d, vt, v, ch⟩ := s
  dsimp only at h
  subst h
  exact ⟨rfl, fun b => rfl⟩

/-- C3 witness: the non-literal value `yes` encodes to wire false, and both
wire booleans decode to their literal strings. -/
theorem booleanLenientCodec_witness :
    convertSettingInstance ⟨"d", "boolean", some "yes", none⟩ =
      (some (.mk odataSimpleInstance "d"
        (some ⟨odataBooleanValue, .vbool false⟩) none [] none []), []) ∧
    parseSimpleSettingValue (some ⟨odataBooleanValue, .vbool true⟩) =
      (some "boolean", some "true") := by
  have := booleanLenientCodec ⟨"d", "boolean", some "yes", none⟩ rfl
  exact ⟨this.1, this.2 true⟩

theorem convertToAPISettings_diags_ne_nil (l : List SettingModel) (s : SettingModel)
    (hs : s ∈ l) (h : (convertSettingInstance s).2 ≠ []) :
    (convertToAPISettings l).2 ≠ [] := by
  induction l with
  | nil => cases hs
  | cons a r ih =>
    simp only [convertToAPISettings]
    rcases List.mem_cons.mp hs with rfl | hmem
    · simp [h]
    · intro hcontra
      rcases List.append_eq_nil.mp hcontra with ⟨-, h2⟩
      exact ih hmem h2

/-- C4 (corrected): a non-integer integer value or a non-JSON-array
collection value anywhere in the list records a diagnostic and prevents any
wire list from being handed to the transport.  (The diagnostic text
identifies the offending value, not the definitionId or position — see the
counterexample.) -/
theorem encodeAbortsOnBadValue (l : List SettingModel) (s : SettingModel)
    (hs : s ∈ l)
    (h : (s.value_type = "integer" ∧ ∃ e, goParseInt64 (s.value.getD "") = .error e) ∨
         (s.value_type = "collection" ∧ goUnmarshalArray (s.value.getD "") = none)) :
    (convertToAPISettings l).2 ≠ [] ∧ encodeForSubmit l = none := by
  have hdiag : (convertSettingInstance s).2 ≠ [] := by
    obtain ⟨d, vt, v, ch⟩ := s
    rcases h with ⟨hvt, e, he⟩ | ⟨hvt, he⟩ <;> dsimp only at hvt <;> subst hvt <;>
      simp [convertSettingInstance, he]
  have hne := convertToAPISettings_diags_ne_nil l s hs hdiag
  refine ⟨hne, ?_⟩
  unfold encodeForSubmit
  split
  · next ws heq =>
    exact absurd (congrArg Prod.snd heq) hne
  · rfl

/-- C4 witness: a malformed collection value aborts the submission. -/
theorem encodeAbortsOnBadValue_witness :
    (convertToAPISettings [⟨"defC", "collection", some "notjson", none⟩]).2 ≠ [] ∧
    encodeForSubmit [⟨"defC", "collection", some "notjson", none⟩] = none :=
  encodeAbortsOnBadValue [⟨"defC", "collection", some "notjson", none⟩]
    ⟨"defC", "collection", some "notjson", none⟩ (by simp)
    (Or.inr ⟨rfl, rfl⟩)

/-- C4 counterexample: the diagnostic recorded for a bad integer value is
identical for two settings that differ only in their definition id, and for
the same bad setting at different list positions, so the surfaced error
cannot identify the offending element's definitionId or position; its text
carries only the offending value. -/
theorem encodeErrorLacksDefinitionId :
    (convertToAPISettings [⟨"defA", "integer", some "abc", none⟩]).2 =
      (convertToAPISettings [⟨"defB", "integer", some "abc", none⟩]).2 ∧
    (convertToAPISettings [⟨"okA", "string", some "x", none⟩,
        ⟨"defA", "integer", some "abc", none⟩]).2 =
      (convertToAPISettings [⟨"defA", "integer", some "abc", none⟩]).2 ∧
    (convertToAPISettings [⟨"defA", "integer", some "abc", none⟩]).2 =
      [⟨"Invalid Integer Value",
        "Could not parse 'abc' as integer: strconv.ParseInt: parsing \"abc\": invalid syntax"⟩] ∧
    encodeForSubmit [⟨"defA", "integer", some "abc", none⟩] = none :=
  ⟨by decide, by decide, by decide, rfl⟩

/-- C5 (confirmed): a simple setting value with an unrecognized wire subtype
tag decodes as a string-typed declared setting carrying the stringified wire
value; the surrounding elements decode exactly as they would alone and no
diagnostic is produced, so the unrecognized subtype never aborts the whole
decode. -/
theorem decodeUnknownSubtypeStringFallback
    (pre post : List SettingsCatalogPolicySetting)
    (outer defId t : String) (v : WireVal)
    (h1 : t ≠ odataStringValue) (h2 : t ≠ odataIntegerValue)
    (h3 : t ≠ odataBooleanValue) :
    decodeSettingsList (pre ++ .mk outer (some (.mk odataSimpleInstance defId
        (some ⟨t, v⟩) none [] none [])) :: post) =
      ((decodeSettingsList pre).1 ++
        ⟨defId, "string", some v.sprintf, none⟩ :: (decodeSettingsList post).1,
       [],
       (decodeSettingsList pre).2.2 ++ (decodeSettingsList post).2.2) := by
  have hmid : decodeSettingsList [.mk outer (some (.mk odataSimpleInstance defId
      (some ⟨t, v⟩) none [] none []))] =
      ([⟨defId, "string", some v.sprintf, none⟩], [], []) := by
    simp only [decodeSettingsList, SettingsCatalogPolicySetting.settingInstance,
      decodeInstance, SettingInstance.simpleSettingValue, parseSimpleSettingValue,
      SettingInstance.settingDefinitionId, SimpleSettingValue.odataType,
      if_neg h1, if_neg h2, if_neg h3, Option.getD_some]
    rfl
  have hxp : pre ++ .mk outer (some (.mk odataSimpleInstance defId
      (some ⟨t, v⟩) none [] none [])) :: post =
      (pre ++ [.mk outer (some (.mk odataSimpleInstance defId
        (some ⟨t, v⟩) none [] none []))]) ++ post := by simp
  rw [hxp, decodeSettingsList_append, decodeSettingsList_append, hmid,
    decodeSettingsList_no_diags pre, decodeSettingsList_no_diags post]
  simp

/-- C5 witness: a concrete unknown subtype tag decodes leniently. -/
theorem decodeUnknownSubtypeStringFallback_witness :
    decodeSettingsList [.mk odataSetting (some (.mk odataSimpleInstance "dX"
        (some ⟨"#microsoft.graph.unknownNewSettingValue", .vstr "x"⟩) none [] none []))] =
      ([⟨"dX", "string", some "x", none⟩], [], []) := by
  have := decodeUnknownSubtypeStringFallback [] [] odataSetting "dX"
    "#microsoft.graph.unknownNewSettingValue" (.vstr "x")
    (by decide) (by decide) (by decide)
  simpa using this

/-- C7 (confirmed): a group setting with zero declared children (null or
empty list) encodes to a group instance whose group value has an empty
children slice, which marshalling omits entirely (`omitempty`), and that
wire node decodes back to a group setting with no children. -/
theorem groupZeroChildrenOmitted (d : String) (v : Option String)
    (ch : Option (List ChildSettingModel)) (h : ch = none ∨ ch = some []) :
    convertSettingInstance ⟨d, "group", v, ch⟩ =
      (some (.mk odataGroupInstance d none none []
        (some (.mk odataGroupValue [])) []), []) ∧
    "children" ∉ (GroupSettingValue.mk odataGroupValue []).serializedFieldNames ∧
    decodeInstance (.mk odataGroupInstance d none none []
        (some (.mk odataGroupValue [])) []) =
      (some ⟨d, "group", none, none⟩, [], []) := by
  rcases h with rfl | rfl <;>
    exact ⟨rfl, by decide, rfl⟩

/-- C7 witness: the concrete zero-children group round trip. -/
theorem groupZeroChildrenOmitted_witness :
    convertSettingInstance ⟨"dg", "group", none, some []⟩ =
      (some (.mk odataGroupInstance "dg" none none []
        (some (.mk odataGroupValue [])) []), []) ∧
    "children" ∉ (GroupSettingValue.mk odataGroupValue []).serializedFieldNames ∧
    decodeInstance (.mk odataGroupInstance "dg" none none []
        (some (.mk odataGroupValue [])) []) =
      (some ⟨"dg", "group", none, none⟩, [], []) :=
  groupZeroChildrenOmitted "dg" none (some []) (Or.inr rfl)

theorem policySettingsPath_ne (pid : String) :
    policySettingsPath pid ≠ policyPath pid := by
  intro h
  have hlen := congrArg String.length h
  rw [policySettingsPath, String.length_append] at hlen
  have h9 : ("/settings" : String).length = 9 := rfl
  omega

/-- C8 (confirmed): deleting the settings resource issues exactly one call —
a PUT of the empty settings list to the policy's settings endpoint — never a
DELETE of, or any call to, the parent policy object, which (under the
modelled service semantics of the settings endpoint) remains in place with
every other field unchanged. -/
theorem deleteClearsSettingsNotPolicy (pid : String) (p : PolicyRemote) :
    deleteRequests pid = [⟨"PUT", policySettingsPath pid, some []⟩] ∧
    (∀ c ∈ deleteRequests pid, c.method ≠ "DELETE" ∧ c.path ≠ policyPath pid) ∧
    (deleteRequests pid).foldl (applyCall pid) (some p) =
      some ⟨p.id, p.name, p.description, p.platforms, p.technologies, []⟩ := by
  refine ⟨rfl, ?_, ?_⟩
  · intro c hc
    rw [deleteRequests, List.mem_singleton] at hc
    subst hc
    exact ⟨by show ("PUT" : String) ≠ "DELETE"; decide, policySettingsPath_ne pid⟩
  · cases p
    simp [deleteRequests, updateSettingsCall, applyCall]

/-- C8 witness: the concrete request list and post-state for one policy. -/
theorem deleteClearsSettingsNotPolicy_witness :
    deleteRequests "p1" = [⟨"PUT", policySettingsPath "p1", some []⟩] ∧
    (deleteRequests "p1").foldl (applyCall "p1")
        (some ⟨"p1", "n", "desc", "windows10", "mdm", []⟩) =
      some ⟨"p1", "n", "desc", "windows10", "mdm", []⟩ := by
  have := deleteClearsSettingsNotPolicy "p1" ⟨"p1", "n", "desc", "windows10", "mdm", []⟩
  exact ⟨this.1, this.2.2⟩

/-- C9 (confirmed): a top-level wire element with a nil setting instance, or
whose instance populates none of the four recognized value fields, is
skipped: the decoded list is the decode of the rest (hence strictly shorter
than the wire list), no diagnostic is raised, and the only output is a log
warning in the unrecognized-shape case (the nil-instance case produces
nothing at all); no string fallback is applied to such elements. -/
theorem decodeSkipsUnknownShapes
    (pre post : List SettingsCatalogPolicySetting) (x : SettingsCatalogPolicySetting)
    (h : x.settingInstance = none ∨
      ∃ inst, x.settingInstance = some inst ∧ inst.simpleSettingValue = none ∧
        inst.choiceSettingValue = none ∧ inst.simpleSettingCollectionValue = [] ∧
        inst.groupSettingValue = none) :
    (decodeSettingsList (pre ++ x :: post)).1 =
      (decodeSettingsList pre).1 ++ (decodeSettingsList post).1 ∧
    (decodeSettingsList (pre ++ x :: post)).2.1 = [] ∧
    (decodeSettingsList (pre ++ x :: post)).1.length < (pre ++ x :: post).length ∧
    (decodeSettingsList (pre ++ x :: post)).2.2 =
      (decodeSettingsList pre).2.2 ++
        (match x.settingInstance with
         | none => []
         | some inst => [⟨inst.settingDefinitionId, inst.odataType⟩]) ++
        (decodeSettingsList post).2.2 := by
  have hmid : decodeSettingsList [x] =
      ([], [],
       (match x.settingInstance with
        | none => []
        | some inst => [⟨inst.settingDefinitionId, inst.odataType⟩])) := by
    rcases h with h | ⟨inst, hi, h1, h2, h3, h4⟩
    · simp [decodeSettingsList, h]
    · simp only [decodeSettingsList, hi, decodeInstance, h1, h2, h3, h4]
      rfl
  have hxp : pre ++ x :: post = (pre ++ [x]) ++ post := by simp
  have hsplit1 : decodeSettingsList (pre ++ x :: post) =
      ((decodeSettingsList pre).1 ++ (decodeSettingsList post).1,
       (decodeSettingsList pre).2.1 ++ ([] ++ (decodeSettingsList post).2.1),
       ((decodeSettingsList pre).2.2 ++
          (match x.settingInstance with
           | none => []
           | some inst => [⟨inst.settingDefinitionId, inst.odataType⟩])) ++
         (decodeSettingsList post).2.2) := by
    rw [hxp, decodeSettingsList_append, decodeSettingsList_append, hmid]
    simp
  have hlen1 := decodeSettingsList_length_le pre
  have hlen2 := decodeSettingsList_length_le post
  refine ⟨?_, ?_, ?_, ?_⟩
  · rw [hsplit1]
  · rw [hsplit1]
    simp [decodeSettingsList_no_diags]
  · rw [hsplit1]
    simp only [List.length_append, List.length_cons]
    omega
  · rw [hsplit1]

/-- C9 witness: a wire element carrying only a group setting collection
value is skipped with a warning; the decoded list is strictly shorter. -/
theorem decodeSkipsUnknownShapes_witness :
    (decodeSettingsList [.mk odataSetting (some (.mk "#gsc" "dG" none none [] none
        [.mk odataGroupValue []]))]).1 = [] ∧
    (decodeSettingsList [.mk odataSetting (some (.mk "#gsc" "dG" none none [] none
        [.mk odataGroupValue []]))]).2.1 = [] ∧
    (decodeSettingsList [.mk odataSetting (some (.mk "#gsc" "dG" none none [] none
        [.mk odataGroupValue []]))]).1.length < 1 ∧
    (decodeSettingsList [.mk odataSetting (some (.mk "#gsc" "dG" none none [] none
        [.mk odataGroupValue []]))]).2.2 = [⟨"dG", "#gsc"⟩] := by
  have := decodeSkipsUnknownShapes [] []
    (.mk odataSetting (some (.mk "#gsc" "dG" none none [] none [.mk odataGroupValue []])))
    (Or.inr ⟨.mk "#gsc" "dG" none none [] none [.mk odataGroupValue []],
      rfl, rfl, rfl, rfl, rfl⟩)
  simpa using this

/-- C10 (confirmed): when the remote policy exists but its settings list is
empty, Read removes the resource from state; and a Read that stores a state
never stores an empty declared setting list (the decoder normalizes an empty
result to a null list, and Read removes the resource before decoding an
empty wire list). -/
theorem readEmptySettingsRemovesResource (pid : String) :
    (∀ p : PolicyRemote, p.settings = [] → readStep pid (.ok p) = .removed) ∧
    (∀ inp l, readStep pid inp = .stateSet (some l) → l ≠ []) := by
  constructor
  · intro p h
    simp [readStep, h]
  · intro inp l h
    cases inp with
    | notFound => simp [readStep] at h
    | otherError code msg => simp [readStep] at h
    | ok p =>
      rw [readStep] at h
      split at h
      · cases h
      · dsimp only [convertAPISettingsToModel] at h
        split at h
        · split at h
          · cases h
          · next hne =>
            cases h
            simpa using hne
        · cases h

/-- C10 witness: a policy with no settings is removed, and a decoded
singleton state is nonempty. -/
theorem readEmptySettingsRemovesResource_witness :
    readStep "p1" (.ok ⟨"p1", "n", "", "windows10", "mdm", []⟩) = .removed ∧
    ([⟨"dX", "string", some "x", none⟩] : List SettingModel) ≠ [] := by
  refine ⟨(readEmptySettingsRemovesResource "p1").1 _ rfl, ?_⟩
  exact (readEmptySettingsRemovesResource "p1").2
    (.ok ⟨"p1", "n", "", "windows10", "mdm",
      [.mk odataSetting (some (.mk odataSimpleInstance "dX"
        (some ⟨odataStringValue, .vstr "x"⟩) none [] none []))]⟩)
    [⟨"dX", "string", some "x", none⟩] rfl

theorem hexVal_hexDigitChar : ∀ n < 16, hexVal (hexDigitChar n) = some n := by decide

theorem parseStringBody_uEscape (fuel : Nat) (r1 : List Char) (n : Nat) (r2 : List Char)
    (hx : parseHex4 r1 = some (n, r2)) (hns : ¬(0xD800 ≤ n ∧ n < 0xE000)) :
    parseStringBody (fuel + 1) ('\\' :: 'u' :: r1) =
      (parseStringBody fuel r2).map (fun p => (Char.ofNat n :: p.1, p.2)) := by
  have step : parseStringBody (fuel + 1) ('\\' :: 'u' :: r1) =
      match parseHex4 r1 with
      | some (n, r2) =>
        if 0xD800 ≤ n ∧ n < 0xDC00 then
          match parseUQuad r2 with
          | some (n2, r3) =>
            if 0xDC00 ≤ n2 ∧ n2 < 0xE000 then
              (parseStringBody fuel r3).map (fun p =>
                (Char.ofNat (0x10000 + (n - 0xD800) * 0x400 + (n2 - 0xDC00)) :: p.1, p.2))
            else (parseStringBody fuel r2).map (fun p => (Char.ofNat 0xFFFD :: p.1, p.2))
          | none => (parseStringBody fuel r2).map (fun p => (Char.ofNat 0xFFFD :: p.1, p.2))
        else if 0xDC00 ≤ n ∧ n < 0xE000 then
          (parseStringBody fuel r2).map (fun p => (Char.ofNat 0xFFFD :: p.1, p.2))
        else (parseStringBody fuel r2).map (fun p => (Char.ofNat n :: p.1, p.2))
      | none => none := rfl
  rw [step, hx]
  dsimp only
  rw [if_neg (by omega), if_neg (by omega)]


theorem parseStringBody_literal (fuel : Nat) (c : Char) (r : List Char)
    (h1 : c ≠ '"') (h2 : c ≠ '\\') (h3 : ¬c.toNat < 32) :
    parseStringBody (fuel + 1) (c :: r) =
      (parseStringBody fuel r).map (fun p => (c :: p.1, p.2)) := by
  have step : parseStringBody (fuel + 1) (c :: r) =
      (if c = '"' then some ([], r)
      else if c = '\\' then
        match r with
        | [] => none
        | e :: r1 =>
          if e = '"' ∨ e = '\\' ∨ e = '/' then
            (parseStringBody fuel r1).map (fun p => (e :: p.1, p.2))
          else if e = 'b' then (parseStringBody fuel r1).map (fun p => (Char.ofNat 8 :: p.1, p.2))
          else if e = 'f' then (parseStringBody fuel r1).map (fun p => (Char.ofNat 12 :: p.1, p.2))
          else if e = 'n' then (parseStringBody fuel r1).map (fun p => ('\n' :: p.1, p.2))
          else if e = 'r' then (parseStringBody fuel r1).map (fun p => ('\r' :: p.1, p.2))
          else if e = 't' then (parseStringBody fuel r1).map (fun p => ('\t' :: p.1, p.2))
          else if e = 'u' then
            match parseHex4 r1 with
            | some (n, r2) =>
              if 0xD800 ≤ n ∧ n < 0xDC00 then
                match parseUQuad r2 with
                | some (n2, r3) =>
                  if 0xDC00 ≤ n2 ∧ n2 < 0xE000 then
                    (parseStringBody fuel r3).map (fun p =>
                      (Char.ofNat (0x10000 + (n - 0xD800) * 0x400 + (n2 - 0xDC00)) :: p.1, p.2))
                  else
                    (parseStringBody fuel r2).map (fun p => (Char.ofNat 0xFFFD :: p.1, p.2))
                | none =>
                  (parseStringBody fuel r2).map (fun p => (Char.ofNat 0xFFFD :: p.1, p.2))
              else if 0xDC00 ≤ n ∧ n < 0xE000 then
                (parseStringBody fuel r2).map (fun p => (Char.ofNat 0xFFFD :: p.1, p.2))
              else
                (parseStringBody fuel r2).map (fun p => (Char.ofNat n :: p.1, p.2))
            | none => none
          else none
      else if c.toNat < 32 then none
      else (parseStringBody fuel r).map (fun p => (c :: p.1, p.2))) := rfl
  rw [step, if_neg h1, if_neg h2, if_neg h3]

theorem parseStringBody_jsonEscape (cs : List Char) :
    ∀ (fuel : Nat) (rest : List Char), cs.length < fuel →
      parseStringBody fuel (jsonEscape cs ++ '"' :: rest) = some (cs, rest) := by
  induction cs with
  | nil =>
    intro fuel rest hf
    cases fuel with
    | zero => omega
    | succ fuel => rfl
  | cons c cs ih =>
    intro fuel rest hf
    cases fuel with
    | zero => omega
    | succ fuel =>
    have hf' : cs.length < fuel := by
      simp only [List.length_cons] at hf
      omega
    have ihr := ih fuel rest hf'
    show parseStringBody (fuel + 1) ((jsonEscapeChar c ++ jsonEscape cs) ++ '"' :: rest) =
      some (c :: cs, rest)
    rw [List.append_assoc]
    by_cases h1 : c = '"'
    · subst h1
      show (parseStringBody fuel (jsonEscape cs ++ '"' :: rest)).map
        (fun p => ('"' :: p.1, p.2)) = some ('"' :: cs, rest)
      rw [ihr]
      rfl
    by_cases h2 : c = '\\'
    · subst h2
      show (parseStringBody fuel (jsonEscape cs ++ '"' :: rest)).map
        (fun p => ('\\' :: p.1, p.2)) = some ('\\' :: cs, rest)
      rw [ihr]
      rfl
    by_cases h3 : c = '\n'
    · subst h3
      show (parseStringBody fuel (jsonEscape cs ++ '"' :: rest)).map
        (fun p => ('\n' :: p.1, p.2)) = some ('\n' :: cs, rest)
      rw [ihr]
      rfl
    by_cases h4 : c = '\r'
    · subst h4
      show (parseStringBody fuel (jsonEscape cs ++ '"' :: rest)).map
        (fun p => ('\r' :: p.1, p.2)) = some ('\r' :: cs, rest)
      rw [ihr]
      rfl
    by_cases h5 : c = '\t'
    · subst h5
      show (parseStringBody fuel (jsonEscape cs ++ '"' :: rest)).map
        (fun p => ('\t' :: p.1, p.2)) = some ('\t' :: cs, rest)
      rw [ihr]
      rfl
    by_cases h6 : c = '<'
    · subst h6
      show (parseStringBody fuel (jsonEscape cs ++ '"' :: rest)).map
        (fun p => ('<' :: p.1, p.2)) = some ('<' :: cs, rest)
      rw [ihr]
      rfl
    by_cases h7 : c = '>'
    · subst h7
      show (parseStringBody fuel (jsonEscape cs ++ '"' :: rest)).map
        (fun p => ('>' :: p.1, p.2)) = some ('>' :: cs, rest)
      rw [ihr]
      rfl
    by_cases h8 : c = '&'
    · subst h8
      show (parseStringBody fuel (jsonEscape cs ++ '"' :: rest)).map
        (fun p => ('&' :: p.1, p.2)) = some ('&' :: cs, rest)
      rw [ihr]
      rfl
    have hdisj : ¬(c = '<' ∨ c = '>' ∨ c = '&') := by
      rintro (h | h | h)
      · exact h6 h
      · exact h7 h
      · exact h8 h
    by_cases h9 : c.toNat < 32
    · have hesc : jsonEscapeChar c =
          ['\\', 'u', '0', '0', hexDigitChar (c.toNat / 16), hexDigitChar (c.toNat % 16)] := by
        simp only [jsonEscapeChar, if_neg h1, if_neg h2, if_neg h3, if_neg h4, if_neg h5,
          if_neg hdisj, if_pos h9]
      rw [hesc]
      have hdiv : c.toNat / 16 < 16 := by omega
      have hmod : c.toNat % 16 < 16 := by omega
      have hx : parseHex4 ('0' :: '0' :: hexDigitChar (c.toNat / 16) ::
          hexDigitChar (c.toNat % 16) :: (jsonEscape cs ++ '"' :: rest)) =
          some (c.toNat, jsonEscape cs ++ '"' :: rest) := by
        simp only [parseHex4, show hexVal '0' = some 0 from rfl,
          hexVal_hexDigitChar _ hdiv, hexVal_hexDigitChar _ hmod]
        have harith : (((0 : Nat) * 16 + 0) * 16 + c.toNat / 16) * 16 + c.toNat % 16 = c.toNat := by
          omega
        rw [harith]
      have hred := parseStringBody_uEscape fuel _ c.toNat _ hx (by omega)
      simp only [List.cons_append, List.nil_append]
      rw [hred, Char.ofNat_toNat, ihr]
      rfl
    by_cases h10 : c.toNat = 0x2028
    · have hc : c = Char.ofNat 0x2028 := by rw [← h10, Char.ofNat_toNat]
      subst hc
      show (parseStringBody fuel (jsonEscape cs ++ '"' :: rest)).map
        (fun p => (Char.ofNat 0x2028 :: p.1, p.2)) = some (Char.ofNat 0x2028 :: cs, rest)
      rw [ihr]
      rfl
    by_cases h11 : c.toNat = 0x2029
    · have hc : c = Char.ofNat 0x2029 := by rw [← h11, Char.ofNat_toNat]
      subst hc
      show (parseStringBody fuel (jsonEscape cs ++ '"' :: rest)).map
        (fun p => (Char.ofNat 0x2029 :: p.1, p.2)) = some (Char.ofNat 0x2029 :: cs, rest)
      rw [ihr]
      rfl
    have hesc : jsonEscapeChar c = [c] := by
      unfold jsonEscapeChar
      rw [if_neg h1, if_neg h2, if_neg h3, if_neg h4, if_neg h5,
        if_neg hdisj, if_neg h9, if_neg h10, if_neg h11]
    rw [hesc]
    simp only [List.cons_append, List.nil_append]
    rw [parseStringBody_literal fuel c _ h1 h2 (by omega), ihr]
    rfl



theorem jsonEscapeChar_length_pos (c : Char) : 1 ≤ (jsonEscapeChar c).length := by
  unfold jsonEscapeChar
  repeat' split
  all_goals simp

theorem jsonEscape_length_ge (data : List Char) :
    data.length ≤ (jsonEscape data).length := by
  induction data with
  | nil => simp [jsonEscape]
  | cons c cs ih =>
    have := jsonEscapeChar_length_pos c
    simp only [jsonEscape, List.length_append, List.length_cons]
    omega

theorem parseValue_renderString (fuel : Nat) (s : String) (rest : List Char) :
    parseValue (fuel + 1) (jsonRenderString s ++ rest) = some (.jstr s, rest) := by
  obtain ⟨data⟩ := s
  have harr : jsonRenderString ⟨data⟩ ++ rest = '"' :: (jsonEscape data ++ '"' :: rest) := by
    simp [jsonRenderString]
  rw [harr]
  show (parseStringBody ((jsonEscape data ++ '"' :: rest).length + 1)
      (jsonEscape data ++ '"' :: rest)).map (fun p => (JVal.jstr ⟨p.1⟩, p.2)) =
    some (.jstr ⟨data⟩, rest)
  rw [parseStringBody_jsonEscape data _ rest (by
    have := jsonEscape_length_ge data
    simp only [List.length_append, List.length_cons]
    omega)]
  rfl

theorem parseElemsTail_renderTail (ls : List String) :
    ∀ (fuel : Nat) (rest : List Char), ls.length < fuel →
      parseElemsTail fuel (jsonRenderTail ls ++ ']' :: rest) =
        some (ls.map JVal.jstr, rest) := by
  induction ls with
  | nil =>
    intro fuel rest hf
    cases fuel with
    | zero => omega
    | succ fuel => rfl
  | cons s ls ih =>
    intro fuel rest hf
    cases fuel with
    | zero => omega
    | succ fuel =>
    cases fuel with
    | zero => simp only [List.length_cons] at hf; omega
    | succ f2 =>
    have harr : jsonRenderTail (s :: ls) ++ ']' :: rest =
        ',' :: (jsonRenderString s ++ (jsonRenderTail ls ++ ']' :: rest)) := by
      simp [jsonRenderTail]
    rw [harr]
    show (match parseValue (f2 + 1) (jsonRenderString s ++ (jsonRenderTail ls ++ ']' :: rest)) with
      | none => none
      | some (v, r2) => (parseElemsTail (f2 + 1) r2).map (fun p => (v :: p.1, p.2))) =
      some ((s :: ls).map JVal.jstr, rest)
    rw [parseValue_renderString f2 s (jsonRenderTail ls ++ ']' :: rest)]
    dsimp only
    rw [ih (f2 + 1) rest (by simp at hf; omega)]
    rfl

theorem parseElems_render (ls : List String) (fuel : Nat) (rest : List Char)
    (hf : ls.length < fuel) :
    parseElems (fuel + 1) (jsonRenderStringsSep ls ++ ']' :: rest) =
      some (ls.map JVal.jstr, rest) := by
  cases ls with
  | nil => rfl
  | cons s ls =>
    cases fuel with
    | zero => omega
    | succ f2 =>
    have harr : jsonRenderStringsSep (s :: ls) ++ ']' :: rest =
        jsonRenderString s ++ (jsonRenderTail ls ++ ']' :: rest) := by
      simp [jsonRenderStringsSep]
    rw [harr]
    show (match parseValue (f2 + 1) (jsonRenderString s ++ (jsonRenderTail ls ++ ']' :: rest)) with
      | none => none
      | some (v, r) => (parseElemsTail (f2 + 1) r).map (fun p => (v :: p.1, p.2))) =
      some ((s :: ls).map JVal.jstr, rest)
    rw [parseValue_renderString f2 s (jsonRenderTail ls ++ ']' :: rest)]
    dsimp only
    rw [parseElemsTail_renderTail ls (f2 + 1) rest
      (by simp only [List.length_cons] at hf; omega)]
    rfl

theorem jsonRenderString_length_ge (s : String) : 2 ≤ (jsonRenderString s).length := by
  simp [jsonRenderString]

theorem jsonRenderTail_length_ge (ls : List String) :
    ls.length ≤ (jsonRenderTail ls).length := by
  induction ls with
  | nil => simp [jsonRenderTail]
  | cons s ls ih =>
    have := jsonRenderString_length_ge s
    simp only [jsonRenderTail, List.length_append, List.length_cons]
    omega

theorem jsonRenderStringsSep_length_ge (ls : List String) :
    ls.length ≤ (jsonRenderStringsSep ls).length := by
  cases ls with
  | nil => simp [jsonRenderStringsSep]
  | cons s ls =>
    have h1 := jsonRenderString_length_ge s
    have h2 := jsonRenderTail_length_ge ls
    simp only [jsonRenderStringsSep, List.length_append, List.length_cons]
    omega

theorem goUnmarshalJSON_marshalStrings (l : List String) :
    goUnmarshalJSON (jsonMarshalStrings l) = some (.jarr (l.map .jstr)) := by
  unfold goUnmarshalJSON
  have hlen : l.length < 2 * ('[' :: jsonRenderStringsSep l ++ [']']).length + 2 := by
    have := jsonRenderStringsSep_length_ge l
    simp only [List.length_cons, List.length_append]
    omega
  have hpe := parseElems_render l (2 * ('[' :: jsonRenderStringsSep l ++ [']']).length + 2) [] hlen
  have hpv : parseValue (2 * ('[' :: jsonRenderStringsSep l ++ [']']).length + 4)
      ('[' :: (jsonRenderStringsSep l ++ [']'])) = some (.jarr (l.map .jstr), []) := by
    show (parseElems (2 * ('[' :: jsonRenderStringsSep l ++ [']']).length + 3)
        (jsonRenderStringsSep l ++ [']'])).map (fun p => (JVal.jarr p.1, p.2)) =
      some (.jarr (l.map .jstr), [])
    rw [show parseElems (2 * ('[' :: jsonRenderStringsSep l ++ [']']).length + 3)
        (jsonRenderStringsSep l ++ [']']) = some (l.map JVal.jstr, []) from hpe]
    rfl
  show (match parseValue (2 * ('[' :: jsonRenderStringsSep l ++ [']']).length + 4)
      ('[' :: (jsonRenderStringsSep l ++ [']'])) with
    | some (v, r) => if (skipWs r).isEmpty then some v else none
    | none => none) = some (.jarr (l.map .jstr))
  rw [hpv]
  rfl

theorem goUnmarshalArray_marshalStrings (l : List String) :
    goUnmarshalArray (jsonMarshalStrings l) = some (l.map JVal.jstr) := by
  unfold goUnmarshalArray
  rw [goUnmarshalJSON_marshalStrings]

/-- C6 (corrected, nonempty lists): encoding a collection setting whose value
is the JSON serialization of a nonempty ordered string list produces one wire
string-scalar per element in index order, and decoding that wire node yields
the same strings in the same order (as the same canonical serialization).
The empty list is excluded: its encoding carries no collection values and is
dropped by the decoder — see the counterexample. -/
theorem collectionRoundTripNonempty (d : String) (l : List String) (h : l ≠ []) :
    convertSettingInstance ⟨d, "collection", some (jsonMarshalStrings l), none⟩ =
      (some (.mk odataCollectionInstance d none none
        (l.map fun s => ⟨odataStringValue, .vstr s⟩) none []), []) ∧
    decodeInstance (.mk odataCollectionInstance d none none
        (l.map fun s => ⟨odataStringValue, .vstr s⟩) none []) =
      (some ⟨d, "collection", some (jsonMarshalStrings l), none⟩, [], []) := by
  obtain ⟨s0, ls, rfl⟩ : ∃ s0 ls, l = s0 :: ls := by
    cases l with
    | nil => exact absurd rfl h
    | cons a b => exact ⟨a, b, rfl⟩
  constructor
  · simp only [convertSettingInstance, Option.getD_some, goUnmarshalArray_marshalStrings]
    simp [List.map_map, Function.comp_def, JVal.sprintfV]
  · simp only [decodeInstance, SettingInstance.simpleSettingValue,
      SettingInstance.choiceSettingValue, SettingInstance.simpleSettingCollectionValue,
      SettingInstance.settingDefinitionId, List.map_cons]
    simp [List.map_map, Function.comp_def, WireVal.sprintf]



/-- A canonical declared child survives the encode/decode cycle. -/
theorem childRoundTrip (c : ChildSettingModel) (h : canonicalChild c = true) :
    (convertChildSetting c).2 = [] ∧
    ∃ w, (convertChildSetting c).1 = some w ∧ decodeChild w = some c := by
  obtain ⟨d, vt, v⟩ := c
  unfold canonicalChild at h
  dsimp only at h
  split at h
  · -- string
    exact ⟨rfl, _, rfl, rfl⟩
  · -- integer
    unfold isCanonicalInt64 at h
    cases hp : goParseInt64 v with
    | error e => rw [hp] at h; cases h
    | ok n =>
      rw [hp] at h
      have hv : toString n = v := by simpa using h
      subst hv
      exact ⟨by simp [convertChildSetting, hp],
        .mk odataSetting (some (.mk odataSimpleInstance d
          (some ⟨odataIntegerValue, .vint n⟩) none [] none [])),
        by simp [convertChildSetting, hp], rfl⟩
  · -- boolean
    rcases (by simpa using h : v = "true" ∨ v = "false") with rfl | rfl
    · exact ⟨rfl, _, rfl, rfl⟩
    · exact ⟨rfl, _, rfl, rfl⟩
  · -- choice
    exact ⟨rfl, _, rfl, rfl⟩
  · -- unknown kind
    cases h

/-- A list of canonical declared children converts with no diagnostics and
decodes back to itself in order. -/
theorem childrenRoundTrip (cs : List ChildSettingModel)
    (h : cs.all canonicalChild = true) :
    (convertChildren cs).2 = [] ∧
    decodeChildrenLoop (convertChildren cs).1 = cs := by
  induction cs with
  | nil => exact ⟨rfl, rfl⟩
  | cons c cr ih =>
    simp only [List.all_cons, Bool.and_eq_true] at h
    obtain ⟨hc, hcr⟩ := h
    obtain ⟨he2, w, hw1, hw2⟩ := childRoundTrip c hc
    obtain ⟨ih2, ihl⟩ := ih hcr
    constructor
    · simp only [convertChildren]
      rw [he2, ih2]
      rfl
    · simp only [convertChildren]
      rw [hw1]
      dsimp only
      simp only [decodeChildrenLoop, hw2, ihl]



/-- A canonical declared setting of any of the six kinds encodes with no
diagnostics into an instance that decodes back to exactly the setting. -/
theorem canonicalRoundTripInstance (s : SettingModel) (h : canonicalSetting s = true) :
    (convertSettingInstance s).2 = [] ∧
    ∃ inst, (convertSettingInstance s).1 = some inst ∧
      decodeInstance inst = (some s, [], []) := by
  obtain ⟨d, vt, v, ch⟩ := s
  unfold canonicalSetting at h
  dsimp only at h
  split at h
  · -- string
    rw [Bool.and_eq_true] at h
    obtain ⟨hv, hch⟩ := h
    obtain ⟨vv, rfl⟩ := Option.isSome_iff_exists.mp hv
    have hch' : ch = none := by simpa using hch
    subst hch'
    exact ⟨rfl, _, rfl, rfl⟩
  · -- integer
    rw [Bool.and_eq_true] at h
    obtain ⟨hv, hch⟩ := h
    have hch' : ch = none := by simpa using hch
    subst hch'
    cases v with
    | none => simp at hv
    | some vv =>
      simp only [Option.map_some', Option.getD_some] at hv
      unfold isCanonicalInt64 at hv
      cases hp : goParseInt64 vv with
      | error e => rw [hp] at hv; cases hv
      | ok n =>
        rw [hp] at hv
        have hveq : toString n = vv := by simpa using hv
        subst hveq
        exact ⟨by simp [convertSettingInstance, hp],
          .mk odataSimpleInstance d (some ⟨odataIntegerValue, .vint n⟩) none [] none [],
          by simp [convertSettingInstance, hp], rfl⟩
  · -- boolean
    rw [Bool.and_eq_true] at h
    obtain ⟨hv, hch⟩ := h
    have hch' : ch = none := by simpa using hch
    subst hch'
    rcases (by simpa using hv : v = some "true" ∨ v = some "false") with rfl | rfl
    · exact ⟨rfl, _, rfl, rfl⟩
    · exact ⟨rfl, _, rfl, rfl⟩
  · -- choice
    rw [Bool.and_eq_true] at h
    obtain ⟨hv, hch⟩ := h
    obtain ⟨vv, rfl⟩ := Option.isSome_iff_exists.mp hv
    cases ch with
    | none => exact ⟨rfl, _, rfl, rfl⟩
    | some cs =>
      unfold canonicalChildren at hch
      rw [Bool.and_eq_true] at hch
      obtain ⟨hne, hall⟩ := hch
      obtain ⟨c0, cr, rfl⟩ : ∃ c0 cr, cs = c0 :: cr := by
        cases cs with
        | nil => simp at hne
        | cons a b => exact ⟨a, b, rfl⟩
      obtain ⟨hcd, hcl⟩ := childrenRoundTrip (c0 :: cr) hall
      have henc : convertSettingInstance ⟨d, "choice", some vv, some (c0 :: cr)⟩ =
          (some (.mk odataChoiceInstance d none
            (some (.mk odataChoiceValue vv (convertChildren (c0 :: cr)).1)) [] none []),
           (convertChildren (c0 :: cr)).2) := by
        simp only [convertSettingInstance, childrenToConvert, Option.getD_some]
        rw [if_pos (by simp)]
      refine ⟨?_, .mk odataChoiceInstance d none
        (some (.mk odataChoiceValue vv (convertChildren (c0 :: cr)).1)) [] none [], ?_, ?_⟩
      · rw [henc]
        exact hcd
      · rw [henc]
      · cases hws : (convertChildren (c0 :: cr)).1 with
        | nil => rw [hws] at hcl; cases hcl
        | cons w0 wr =>
          rw [hws] at hcl
          simp only [decodeInstance, SettingInstance.simpleSettingValue,
            SettingInstance.choiceSettingValue, SettingInstance.settingDefinitionId,
            ChoiceSettingValue.children, ChoiceSettingValue.value]
          rw [if_pos (by simp)]
          simp only [parseChildSettings, hcl]
          rfl
  · -- collection
    rw [Bool.and_eq_true] at h
    obtain ⟨hv, hch⟩ := h
    have hch' : ch = none := by simpa using hch
    subst hch'
    cases v with
    | none => simp at hv
    | some vv =>
      simp only [Option.map_some', Option.getD_some] at hv
      unfold canonicalCollectionValue at hv
      cases hm : goUnmarshalArray vv with
      | none => rw [hm] at hv; cases hv
      | some es =>
        rw [hm] at hv
        rw [Bool.and_eq_true, Bool.and_eq_true] at hv
        obtain ⟨⟨hne, hstr⟩, hmv⟩ := hv
        have hmv' : jsonMarshalStrings (es.map JVal.sprintfV) = vv := by simpa using hmv
        obtain ⟨e0, er, rfl⟩ : ∃ e0 er, es = e0 :: er := by
          cases es with
          | nil => simp at hne
          | cons a b => exact ⟨a, b, rfl⟩
        refine ⟨by simp [convertSettingInstance, hm],
          .mk odataCollectionInstance d none none
            ((e0 :: er).map fun x => ⟨odataStringValue, .vstr x.sprintfV⟩) none [], ?_, ?_⟩
        · simp [convertSettingInstance, hm]
        · simp only [decodeInstance, SettingInstance.simpleSettingValue,
            SettingInstance.choiceSettingValue, SettingInstance.simpleSettingCollectionValue,
            SettingInstance.settingDefinitionId, List.map_cons]
          simp only [List.map_map, Function.comp_def, WireVal.sprintf]
          simp
          simpa using hmv'
  · -- group
    rw [Bool.and_eq_true] at h
    obtain ⟨hv, hch⟩ := h
    have hv' : v = none := by simpa using hv
    subst hv'
    cases ch with
    | none => exact ⟨rfl, _, rfl, rfl⟩
    | some cs =>
      unfold canonicalChildren at hch
      rw [Bool.and_eq_true] at hch
      obtain ⟨hne, hall⟩ := hch
      obtain ⟨c0, cr, rfl⟩ : ∃ c0 cr, cs = c0 :: cr := by
        cases cs with
        | nil => simp at hne
        | cons a b => exact ⟨a, b, rfl⟩
      obtain ⟨hcd, hcl⟩ := childrenRoundTrip (c0 :: cr) hall
      have henc : convertSettingInstance ⟨d, "group", none, some (c0 :: cr)⟩ =
          (some (.mk odataGroupInstance d none none []
            (some (.mk odataGroupValue (convertChildren (c0 :: cr)).1)) []),
           (convertChildren (c0 :: cr)).2) := by
        simp only [convertSettingInstance, childrenToConvert, Option.getD_none]
        rw [if_pos (by simp)]
      refine ⟨?_, .mk odataGroupInstance d none none []
        (some (.mk odataGroupValue (convertChildren (c0 :: cr)).1)) [], ?_, ?_⟩
      · rw [henc]
        exact hcd
      · rw [henc]
      · cases hws : (convertChildren (c0 :: cr)).1 with
        | nil => rw [hws] at hcl; cases hcl
        | cons w0 wr =>
          rw [hws] at hcl
          simp only [decodeInstance, SettingInstance.simpleSettingValue,
            SettingInstance.choiceSettingValue, SettingInstance.simpleSettingCollectionValue,
            SettingInstance.groupSettingValue, SettingInstance.settingDefinitionId,
            GroupSettingValue.children]
          rw [if_pos (by simp)]
          simp only [parseChildSettings, hcl]
          rfl
  · -- unknown kind
    cases h



/-- C1 (corrected): for every declared setting of each of the six value
kinds whose value and children are in the canonical form the decoder itself
produces (any string for string/choice, canonical decimal int64 for integer,
literal true/false for boolean, canonical serialization of a nonempty string
list for collection, absent value for group; children absent for scalar
kinds, absent or a nonempty canonical list for choice/group), decoding the
wire node produced by encoding it yields the setting back unchanged —
definition id, value type, value and children.  Values that are merely
accepted by the encoder (e.g. integer `007`) need not round-trip: see the
counterexample. -/
theorem canonicalSettingRoundTrip (s : SettingModel) (h : canonicalSetting s = true) :
    (convertToAPISettings [s]).2 = [] ∧
    convertAPISettingsToModel (convertToAPISettings [s]).1 = (some [s], [], []) := by
  obtain ⟨h2, inst, h1, hdec⟩ := canonicalRoundTripInstance s h
  constructor
  · show (convertSettingInstance s).2 ++ [] = []
    rw [h2]
    rfl
  · show convertAPISettingsToModel [.mk odataSetting (convertSettingInstance s).1] = _
    rw [h1]
    simp only [convertAPISettingsToModel, decodeSettingsList,
      SettingsCatalogPolicySetting.settingInstance, hdec]
    rfl

/-- C1 witness: a concrete canonical choice setting with a boolean child
round-trips. -/
theorem canonicalSettingRoundTrip_witness :
    (convertToAPISettings
      [(⟨"dW", "choice", some "opt", some [⟨"k", "boolean", "true"⟩]⟩ : SettingModel)]).2 = [] ∧
    convertAPISettingsToModel (convertToAPISettings
      [(⟨"dW", "choice", some "opt", some [⟨"k", "boolean", "true"⟩]⟩ : SettingModel)]).1 =
      (some [⟨"dW", "choice", some "opt", some [⟨"k", "boolean", "true"⟩]⟩], [], []) :=
  canonicalSettingRoundTrip ⟨"dW", "choice", some "opt", some [⟨"k", "boolean", "true"⟩]⟩
    (by decide)

/-- C1 counterexample: the integer value `007` is valid for its kind — the
encoder parses it and records no diagnostic — yet the decoded setting
carries the canonical `7`, not `007`, so the round trip of the claim fails
as stated. -/
theorem integer007RoundTripFails :
    goParseInt64 "007" = .ok 7 ∧
    (convertToAPISettings [⟨"d1", "integer", some "007", none⟩]).2 = [] ∧
    convertAPISettingsToModel (convertToAPISettings [⟨"d1", "integer", some "007", none⟩]).1 =
      (some [⟨"d1", "integer", some "7", none⟩], [], []) ∧
    (⟨"d1", "integer", some "7", none⟩ : SettingModel) ≠ ⟨"d1", "integer", some "007", none⟩ :=
  ⟨rfl, by decide, rfl, by decide⟩

/-- C6 counterexample: for the empty string list, encoding the collection
setting (value `[]`) produces a wire instance with no collection values, and
the decoder drops that node entirely (with only a warning) rather than
yielding a collection of zero strings — the claim fails at the empty
list. -/
theorem emptyCollectionDecodeDropsElement :
    convertSettingInstance ⟨"d0", "collection", some (jsonMarshalStrings []), none⟩ =
      (some (.mk odataCollectionInstance "d0" none none [] none []), []) ∧
    decodeInstance (.mk odataCollectionInstance "d0" none none [] none []) =
      (none, [], [⟨"d0", odataCollectionInstance⟩]) :=
  ⟨rfl, rfl⟩

/-- C6 witness: the three-element list round-trips in order. -/
theorem collectionRoundTripNonempty_witness :
    convertSettingInstance ⟨"dc", "collection", some (jsonMarshalStrings ["a", "b", "c"]), none⟩ =
      (some (.mk odataCollectionInstance "dc" none none
        [⟨odataStringValue, .vstr "a"⟩, ⟨odataStringValue, .vstr "b"⟩,
         ⟨odataStringValue, .vstr "c"⟩] none []), []) ∧
    decodeInstance (.mk odataCollectionInstance "dc" none none
        [⟨odataStringValue, .vstr "a"⟩, ⟨odataStringValue, .vstr "b"⟩,
         ⟨odataStringValue, .vstr "c"⟩] none []) =
      (some ⟨"dc", "collection", some (jsonMarshalStrings ["a", "b", "c"]), none⟩, [], []) := by
  have := collectionRoundTripNonempty "dc" ["a", "b", "c"] (by decide)
  exact this

end Tofutune
